import Mathlib

/-!
Verification of the telegram-claude-dispatcher repository.

The Python sources under `src/` are shallowly embedded below: Python strings
become `List Char` (Python `len` counts code points, as does `List.length`),
`datetime` instants become `Int` seconds, mutable object state becomes explicit
state passing, and fallible operations return `Option`.  Each claim about the
spec is then settled as a theorem about these definitions.
-/

namespace Dispatcher

/-! ### Python string helpers

These model the Python `str` operations used by the repository, over
`List Char`.  `isPySpace` covers the whitespace characters Python's
`str.strip()` removes (restricted to the ASCII range actually reachable in the
repository's data). -/

def isPySpace (c : Char) : Bool :=
  c = ' ' || c = '\t' || c = '\n' || c = '\r' || c = '\x0b' || c = '\x0c'

/-- Python `str.lstrip()`. -/
def lstripChars (s : List Char) : List Char := s.dropWhile isPySpace

/-- Python `str.rstrip()`. -/
def rstripChars (s : List Char) : List Char := (s.reverse.dropWhile isPySpace).reverse

/-- Python `str.strip()`. -/
def pyStrip (s : List Char) : List Char := rstripChars (lstripChars s)

/-- Python `s.split('\n')`. -/
def splitNl : List Char → List (List Char)
  | [] => [[]]
  | c :: rest =>
    match splitNl rest with
    | [] => [[c]]
    | l :: ls => if c = '\n' then [] :: l :: ls else (c :: l) :: ls

/-- Python `'\n'.join(ls)`. -/
def joinNl : List (List Char) → List Char
  | [] => []
  | [l] => l
  | l :: l2 :: ls => l ++ '\n' :: joinNl (l2 :: ls)

/-- Index of the first occurrence of `pat` in `s` (Python `s.find(pat)` as an
`Option`), used to model `re.search` over literal patterns. -/
def firstOccur (pat : List Char) : List Char → Option Nat
  | [] => if pat.isEmpty then some 0 else none
  | c :: rest =>
    if pat.isPrefixOf (c :: rest) then some 0
    else (firstOccur pat rest).map (· + 1)

/-- Python `pat in s` (substring containment). -/
def containsSub (pat s : List Char) : Bool := (firstOccur pat s).isSome

/-- Python `s.rfind(c)` for a single-character pattern: highest index of `c`
in `s`, or `-1`. -/
def pyRfind : List Char → Char → Int
  | [], _ => -1
  | a :: rest, c =>
    let r := pyRfind rest c
    if 0 ≤ r then r + 1
    else if a = c then 0 else -1

/-- Python `s[:i]`, including the negative-index convention: a negative `i`
drops `-i` characters from the end (clamped at the empty string). -/
def pySliceTo (s : List Char) (i : Int) : List Char :=
  if 0 ≤ i then s.take i.toNat else s.take (s.length - (-i).toNat)

/-! ### TelegramUtils (src/utils/telegram_utils.py)

The sole durable state is the watermark `last_update_id`.
`acknowledge_messages` computes `max(update_ids)` and persists it when it
exceeds the stored watermark; an empty list is accepted without change.
The file write in `_save_last_update_id` is modelled as always succeeding. -/

namespace TelegramUtils

/-- Python `max` over a non-empty list (head seeds the fold). -/
def pyMax (h : Nat) (t : List Nat) : Nat := t.foldl Nat.max h

/-- `TelegramUtils.acknowledge_messages`: the new value of `last_update_id`
after acknowledging `update_ids` with stored watermark `last`. -/
def acknowledge_messages (last : Nat) (update_ids : List Nat) : Nat :=
  match update_ids with
  | [] => last
  | h :: t =>
    let max_update_id := pyMax h t
    if last < max_update_id then max_update_id else last

/-- The watermark after a sequence of `acknowledge_messages` calls. -/
def runAcks (init : Nat) (calls : List (List Nat)) : Nat :=
  calls.foldl acknowledge_messages init

end TelegramUtils

/-! ### PreHook (src/core/pre_hook.py)

A whitelist/blacklist entry may be a Telegram user id (`int`) or a username
(`str`); membership tests check both the sender's id and username.
Rate limiting is a per-sender list of request timestamps; timestamps are
modelled as integer seconds and `(now - ts).total_seconds() < 60` as
`now - ts < 60`. -/

namespace PreHook

/-- A whitelist/blacklist entry: either a user id or a username. -/
abbrev UserKey := Sum Int String

structure Config where
  whitelist : List UserKey
  blacklist : List UserKey
  rate_limit : Nat
deriving DecidableEq

/-- Membership of a sender (id, username) in a configured user list. -/
def inUserList (lst : List UserKey) (user_id : Int) (username : String) : Bool :=
  lst.contains (Sum.inl user_id) || lst.contains (Sum.inr username)

/-- `PreHook._check_permissions`: blacklist is checked first, then the
whitelist (only when it is non-empty). -/
def check_permissions (cfg : Config) (user_id : Int) (username : String) :
    Bool × Option String :=
  if inUserList cfg.blacklist user_id username then
    (false, some "❌ 您已被禁止使用此服务")
  else if cfg.whitelist ≠ [] then
    if ¬ inUserList cfg.whitelist user_id username then
      (false, some "❌ 抱歉，您没有权限使用此服务")
    else (true, none)
  else (true, none)

/-- `PreHook._check_rate_limit`: prune entries older than 60 seconds, store
the pruned window, reject when it already holds `rate_limit` entries,
otherwise append the current time and accept.  Returns (accepted, new stored
window); the user-facing rejection message is carried alongside in the
source and omitted here. -/
def check_rate_limit (rate_limit : Nat) (window : List Int) (now : Int) :
    Bool × List Int :=
  let pruned := window.filter (fun ts => now - ts < 60)
  if rate_limit ≤ pruned.length then
    (false, pruned)
  else
    (true, pruned ++ [now])

end PreHook

/-! ### PostHook (src/core/post_hook.py)

`process` extracts a reply from the agent's raw output (marker protocol with
a heuristic fallback), cleans it, optionally truncates it, and optionally
appends a timestamp.  The rendered `datetime.now()` timestamp string is
passed in as a parameter. -/

namespace PostHook

def startMarker : List Char := "===REPLY_START===".data

def endMarker : List Char := "===REPLY_END===".data

/-- Tail of the regex `^- \d+个` after the first digit: a run of digits ended
by `个`.  (`\d` is modelled as an ASCII digit; none of the claims depend on
non-ASCII decimal digits.) -/
def digitRun : List Char → Bool
  | [] => false
  | c :: rest => if c = '个' then true else c.isDigit && digitRun rest

/-- The `skip_patterns` of `_smart_extract`, each anchored at the start of the
stripped line (`re.match`). -/
def matchSkip (l : List Char) : Bool :=
  "完成！".data.isPrefixOf l || "完成!".data.isPrefixOf l ||
  "## 处理总结".data.isPrefixOf l ||
  "**收到的消息".data.isPrefixOf l ||
  "**处理结果".data.isPrefixOf l ||
  (match l with
   | c :: rest => c = '✅' && rest.contains '已'
   | [] => false) ||
  "- 用户:".data.isPrefixOf l || "- 用户：".data.isPrefixOf l ||
  "- 内容:".data.isPrefixOf l || "- 内容：".data.isPrefixOf l ||
  ("- ".data.isPrefixOf l &&
    (match l.drop 2 with
     | c :: rest => c.isDigit && digitRun rest
     | [] => false))

/-- The summary-banner detection of `_smart_extract` (substring containment,
`'## 处理总结' in line_stripped or '**收到的消息' in line_stripped`). -/
def isBannerLine (l : List Char) : Bool :=
  containsSub "## 处理总结".data l || containsSub "**收到的消息".data l

/-- The line-filtering loop of `_smart_extract`, carrying the `in_summary`
flag. -/
def smartLines : List (List Char) → Bool → List (List Char)
  | [], _ => []
  | line :: rest, inSummary =>
    let ls := pyStrip line
    if ls = [] then smartLines rest inSummary
    else if isBannerLine ls then smartLines rest true
    else if inSummary then smartLines rest true
    else if matchSkip ls then smartLines rest inSummary
    else ls :: smartLines rest inSummary

/-- `PostHook._smart_extract`. -/
def smart_extract (output : List Char) : Option (List Char) :=
  let content_lines := smartLines (splitNl output) false
  if content_lines = [] then none else some (joinNl content_lines)

/-- `PostHook._extract_reply_content`: the regex
`===REPLY_START===(.*?)===REPLY_END===` with `re.DOTALL` matches at the first
start-marker occurrence that has an end marker after it, the lazy group
reaching to the first end marker after that; if the regex does not match,
fall back to `_smart_extract`. -/
def extract_reply_content (output : List Char) : Option (List Char) :=
  match firstOccur startMarker output with
  | some i =>
    let after := output.drop (i + startMarker.length)
    match firstOccur endMarker after with
    | some j => some (pyStrip (after.take j))
    | none => smart_extract output
  | none => smart_extract output

/-- The blank-line merging loop of `_clean_content`, carrying `prev_empty`. -/
def mergeBlankLines : List (List Char) → Bool → List (List Char)
  | [], _ => []
  | l :: rest, prevEmpty =>
    if l = [] then
      if prevEmpty then mergeBlankLines rest true
      else [] :: mergeBlankLines rest true
    else l :: mergeBlankLines rest false

/-- `PostHook._clean_content`: rstrip each line, collapse runs of blank lines,
join, strip. -/
def clean_content (content : List Char) : List Char :=
  let lines := (splitNl content).map rstripChars
  let cleaned := mergeBlankLines lines false
  pyStrip (joinNl cleaned)

/-- `PostHook._format_content` is the identity in the source. -/
def format_content (content : List Char) : List Char := content

def truncNotice : List Char := "\n\n⚠️ (内容过长，已截断)".data

/-- `PostHook._truncate_content`.  The float comparison
`cut_point > self.max_length * 0.8` is modelled in exact rational form as
`5 * cut_point > 4 * max_length`; at the repository's configured
`max_length = 4000` both comparisons have the same integer solutions, and the
branch only ever shortens the text, so no claim depends on the boundary. -/
def truncate_content (max_length : Nat) (content : List Char) : List Char :=
  if content.length ≤ max_length then content
  else
    let truncated := pySliceTo content ((max_length : Int) - 50)
    let last_period := pyRfind truncated '。'
    let last_newline := pyRfind truncated '\n'
    let cut_point := max last_period last_newline
    let truncated2 :=
      if 4 * (max_length : Int) < 5 * cut_point then
        pySliceTo truncated (cut_point + 1)
      else truncated
    truncated2 ++ truncNotice

structure Config where
  max_length : Nat
  enable_formatting : Bool
  add_timestamp : Bool
deriving DecidableEq

/-- The separator inserted before the optional timestamp,
from `f"{reply_content}\n\n⏰ {timestamp}"`. -/
def tsSep : List Char := "\n\n⏰ ".data

/-- `PostHook.process`: `some reply` models the `(True, reply, None)` result,
`none` models `(False, None, error)`. -/
def process (cfg : Config) (output : List Char) (timestamp : List Char) :
    Option (List Char) :=
  match extract_reply_content output with
  | none => none
  | some rc0 =>
    if rc0 = [] then none
    else
      let rc1 := clean_content rc0
      let rc2 := if cfg.enable_formatting then format_content rc1 else rc1
      let rc3 :=
        if cfg.max_length < rc2.length then truncate_content cfg.max_length rc2
        else rc2
      let rc4 := if cfg.add_timestamp then rc3 ++ tsSep ++ timestamp else rc3
      some rc4

end PostHook

/-! ### SessionManager (src/core/session_manager.py)

Filesystem effects are modelled on an explicit state: the set of existing
session directories (named by session id), the registered active sessions,
and the archived log copies.  `files` maps a session directory to the names
of the files it holds when cleanup runs; directory operations succeed, as the
spec's contracts assume. -/

namespace SessionManager

/-- Does a filename match the glob `*.log`? -/
def isLogName (f : String) : Bool := ".log".data.isSuffixOf f.data

structure State where
  active : List String
  dirs : List String
  archivedLogs : List (String × String)
deriving DecidableEq

/-- `SessionManager.create_session`: make the session directory
(`exist_ok=True`) and register the session as active.  The fresh
`session_id` (uuid + timestamp in the source) is passed in. -/
def create_session (st : State) (session_id : String) : State :=
  { st with
    dirs := if session_id ∈ st.dirs then st.dirs else st.dirs ++ [session_id]
    active :=
      if session_id ∈ st.active then st.active else st.active ++ [session_id] }

/-- `SessionManager.cleanup_session`: unknown sessions return `false`
unchanged; otherwise, when `keep_logs` and the directory exists, copy its
`*.log` files into the archive, then delete the directory and deregister the
session. -/
def cleanup_session (st : State) (files : String → List String)
    (session_id : String) (keep_logs : Bool) : Bool × State :=
  if session_id ∈ st.active then
    let logFiles :=
      if keep_logs && session_id ∈ st.dirs then (files session_id).filter isLogName
      else []
    (true,
      { active := st.active.erase session_id
        dirs := st.dirs.erase session_id
        archivedLogs := st.archivedLogs ++ logFiles.map (fun f => (session_id, f)) })
  else (false, st)

end SessionManager

/-! ### MessageProcessor (src/core/message_processor.py)

The external agent invocation is a black box; its possible outcomes are the
cases of `CallOutcome` (normal exit, timeout kill, spawn failure — all caught
inside `_call_claude_cli`).  `RunOutcome.internalError` models an exception
raised elsewhere in `process_messages`, caught by its `except` clause; the
`finally` clause cleans the session up in every case. -/

namespace MessageProcessor

inductive CallOutcome where
  | exited (returncode : Int) (stdout stderr : List Char)
  | timedOut (partialOut partialErr : List Char)
  | spawnFailed (msg : List Char)
deriving DecidableEq

inductive RunOutcome where
  | call (c : CallOutcome)
  | internalError (msg : List Char)
deriving DecidableEq

/-- The result dict of `process_messages` (the `session_id` entry is omitted:
no claim mentions it).  The exception path's dict lacks a `returncode` key and
every reader uses `result.get('returncode', -1)`, so that path is modelled
with `returncode = -1`. -/
structure ProcResult where
  success : Bool
  output : List Char
  error : List Char
  returncode : Int
deriving DecidableEq

/-- `MessageProcessor._call_claude_cli`. -/
def call_claude_cli (timeout : Nat) : CallOutcome → ProcResult
  | .exited rc out err =>
    { success := rc == 0, output := out, error := err, returncode := rc }
  | .timedOut out err =>
    { success := false, output := out,
      error := "执行超时（".data ++ (toString timeout).data ++ "秒）\n".data ++ err,
      returncode := -1 }
  | .spawnFailed msg =>
    { success := false, output := [], error := msg, returncode := -1 }

/-- `MessageProcessor.process_messages`: create a session, invoke the agent
（or hit an internal exception）, and in all cases clean the session up with
`keep_logs = True` in the `finally` clause. -/
def process_messages (st : SessionManager.State) (files : String → List String)
    (session_id : String) (timeout : Nat) (outcome : RunOutcome) :
    ProcResult × SessionManager.State :=
  let st1 := SessionManager.create_session st session_id
  let result : ProcResult :=
    match outcome with
    | .call c => call_claude_cli timeout c
    | .internalError msg =>
      { success := false, output := [], error := msg, returncode := -1 }
  (result, (SessionManager.cleanup_session st1 files session_id true).2)

end MessageProcessor

/-! ### Dispatcher orchestration (src/dispatcher.py)

One dispatch cycle, from the point where a non-empty batch has been fetched,
is modelled as the list of outbound effects it performs: `send` calls and
`acknowledge_messages` calls, in order.  The PreHook verdict and the
processor result are inputs; `send_message` failures only produce log lines
and change no behaviour, so delivery outcomes do not appear. -/

namespace Orchestrator

structure Msg where
  update_id : Nat
  chat_id : Int
deriving DecidableEq

inductive Action where
  | send (chat_id : Int) (text : List Char)
  | ack (update_ids : List Nat)
deriving DecidableEq

/-- `TelegramClaudeDispatcher._process_messages_with_claude`: on processor
success run PostHook and send the reply to each message's chat; in every case
finish by acknowledging the batch's update ids. -/
def process_messages_with_claude (postCfg : PostHook.Config)
    (timestamp : List Char) (msgs : List Msg)
    (result : MessageProcessor.ProcResult) : List Action :=
  (if result.success then
    match PostHook.process postCfg result.output timestamp with
    | some reply =>
      if reply ≠ [] then msgs.map (fun m => Action.send m.chat_id reply) else []
    | none => []
  else []) ++ [Action.ack (msgs.map (fun m => m.update_id))]

/-- `TelegramClaudeDispatcher.check_and_process_messages`, from the point
where the fetched batch `msgs` is non-empty: on PreHook interception send the
quick reply (when present) to each message's chat and acknowledge; otherwise
hand the batch to the Claude pipeline. -/
def check_and_process_messages (preContinue : Bool)
    (quickReply : Option (List Char)) (postCfg : PostHook.Config)
    (timestamp : List Char) (msgs : List Msg)
    (result : MessageProcessor.ProcResult) : List Action :=
  if preContinue = false then
    (match quickReply with
     | some q =>
       if q = [] then [] else msgs.map (fun m => Action.send m.chat_id q)
     | none => []) ++ [Action.ack (msgs.map (fun m => m.update_id))]
  else
    process_messages_with_claude postCfg timestamp msgs result

/-- Number of deliveries a chat receives in a trace. -/
def sendsTo (chat : Int) (trace : List Action) : Nat :=
  trace.countP (fun a =>
    match a with
    | .send c _ => c == chat
    | .ack _ => false)

end Orchestrator

/-! ### Lemmas about the string helpers -/

theorem dropWhile_idem (p : α → Bool) (l : List α) :
    (l.dropWhile p).dropWhile p = l.dropWhile p := by
  induction l with
  | nil => rfl
  | cons a l ih =>
    by_cases h : p a
    · simpa [List.dropWhile_cons_of_pos h] using ih
    · simp [List.dropWhile_cons_of_neg h]

theorem mem_of_mem_dropWhile {p : α → Bool} {l : List α} {x : α}
    (h : x ∈ l.dropWhile p) : x ∈ l := by
  induction l with
  | nil => simp at h
  | cons a l ih =>
    by_cases hp : p a
    · rw [List.dropWhile_cons_of_pos hp] at h
      exact List.mem_cons_of_mem a (ih h)
    · rwa [List.dropWhile_cons_of_neg hp] at h

theorem mem_of_mem_lstrip {s : List Char} {x : Char} (h : x ∈ lstripChars s) :
    x ∈ s := mem_of_mem_dropWhile h

theorem mem_of_mem_rstrip {s : List Char} {x : Char} (h : x ∈ rstripChars s) :
    x ∈ s := by
  rw [rstripChars, List.mem_reverse] at h
  exact List.mem_reverse.mp (mem_of_mem_dropWhile h)

theorem mem_of_mem_pyStrip {s : List Char} {x : Char} (h : x ∈ pyStrip s) :
    x ∈ s := mem_of_mem_lstrip (mem_of_mem_rstrip h)

theorem lstrip_idem (s : List Char) : lstripChars (lstripChars s) = lstripChars s :=
  dropWhile_idem _ _

theorem rstrip_idem (s : List Char) : rstripChars (rstripChars s) = rstripChars s := by
  simp [rstripChars, List.reverse_reverse, dropWhile_idem]

theorem length_dropWhile_le' (p : α → Bool) (l : List α) :
    (l.dropWhile p).length ≤ l.length := by
  induction l with
  | nil => simp
  | cons a l ih =>
    by_cases h : p a
    · rw [List.dropWhile_cons_of_pos h]
      exact Nat.le_succ_of_le ih
    · rw [List.dropWhile_cons_of_neg h]

/-- `dropWhile` of a list with a distinguished last element either drops
everything or keeps that last element. -/
theorem dropWhile_snoc_cases (p : α → Bool) (xs : List α) (c : α) :
    (xs ++ [c]).dropWhile p = [] ∨
    ∃ ys, (xs ++ [c]).dropWhile p = ys ++ [c] := by
  induction xs with
  | nil =>
    by_cases h : p c
    · left
      simp [List.dropWhile_cons_of_pos h]
    · right
      exact ⟨[], by simp [List.dropWhile_cons_of_neg h]⟩
  | cons a xs ih =>
    by_cases h : p a
    · simpa [List.dropWhile_cons_of_pos h] using ih
    · right
      exact ⟨a :: xs, by simp [List.dropWhile_cons_of_neg h]⟩

theorem lstrip_rstrip_of_lstripped {s : List Char} (h : lstripChars s = s) :
    lstripChars (rstripChars s) = rstripChars s := by
  cases s with
  | nil => rfl
  | cons c t =>
    have hcs : isPySpace c = false := by
      cases hcp : isPySpace c
      · rfl
      · exfalso
        rw [lstripChars, List.dropWhile_cons_of_pos hcp] at h
        have hlen := congrArg List.length h
        have hle := length_dropWhile_le' isPySpace t
        simp only [List.length_cons] at hlen
        omega
    have hrev : (c :: t).reverse = t.reverse ++ [c] := by simp
    rcases dropWhile_snoc_cases isPySpace t.reverse c with hnil | ⟨ys, hys⟩
    · rw [rstripChars, hrev, hnil]
      rfl
    · rw [rstripChars, hrev, hys, List.reverse_append]
      simp only [List.reverse_cons, List.reverse_nil, List.nil_append,
        List.singleton_append]
      rw [lstripChars, List.dropWhile_cons_of_neg (by simp [hcs])]

/-- Python `strip` is idempotent. -/
theorem pyStrip_idem (s : List Char) : pyStrip (pyStrip s) = pyStrip s := by
  unfold pyStrip
  rw [lstrip_rstrip_of_lstripped (lstrip_idem s), rstrip_idem]

theorem length_pySliceTo_le (s : List Char) (i : Int) :
    (pySliceTo s i).length ≤ s.length := by
  unfold pySliceTo
  split <;> simp [List.length_take]

theorem length_pySliceTo_le_toNat (s : List Char) (i : Int) (h : 0 ≤ i) :
    (pySliceTo s i).length ≤ i.toNat := by
  unfold pySliceTo
  rw [if_pos h]
  simp [List.length_take]


/-! ### Lemmas about substring search -/

theorem nil_isPrefixOf (l : List Char) : List.isPrefixOf [] l = true := by
  cases l <;> rfl

theorem isPrefixOf_self (l : List Char) : l.isPrefixOf l = true := by
  induction l with
  | nil => rfl
  | cons a l ih => simp [List.isPrefixOf, ih]

theorem isPrefixOf_append_of {pat xs : List Char} (ys : List Char)
    (h : pat.isPrefixOf xs = true) : pat.isPrefixOf (xs ++ ys) = true := by
  induction pat generalizing xs with
  | nil => exact nil_isPrefixOf _
  | cons a pat ih =>
    cases xs with
    | nil => simp [List.isPrefixOf] at h
    | cons b xs =>
      simp only [List.cons_append, List.isPrefixOf, Bool.and_eq_true] at h ⊢
      exact ⟨h.1, ih h.2⟩

theorem isPrefixOf_of_append {pat xs ys : List Char}
    (hlen : pat.length ≤ xs.length)
    (h : pat.isPrefixOf (xs ++ ys) = true) : pat.isPrefixOf xs = true := by
  induction pat generalizing xs with
  | nil => exact nil_isPrefixOf _
  | cons a pat ih =>
    cases xs with
    | nil => simp at hlen
    | cons b xs =>
      simp only [List.cons_append, List.isPrefixOf, Bool.and_eq_true] at h ⊢
      refine ⟨h.1, ih ?_ h.2⟩
      simp only [List.length_cons] at hlen
      omega

theorem drop_app_le {xs : List Char} (ys : List Char) {j : Nat}
    (h : j ≤ xs.length) : (xs ++ ys).drop j = xs.drop j ++ ys := by
  induction xs generalizing j with
  | nil =>
    have : j = 0 := by simpa using h
    subst this
    rfl
  | cons a xs ih =>
    cases j with
    | zero => rfl
    | succ j' =>
      simp only [List.cons_append, List.drop_succ_cons]
      exact ih (by simpa using h)

theorem firstOccur_some (pat : List Char) :
    ∀ (s : List Char) (i : Nat), firstOccur pat s = some i →
      pat.isPrefixOf (s.drop i) = true ∧
      ∀ j, j < i → pat.isPrefixOf (s.drop j) = false := by
  intro s
  induction s with
  | nil =>
    intro i h
    simp only [firstOccur] at h
    by_cases hemp : pat.isEmpty
    · rw [if_pos hemp] at h
      injection h with h
      subst h
      have hpat : pat = [] := by
        cases pat
        · rfl
        · simp [List.isEmpty] at hemp
      subst hpat
      exact ⟨rfl, fun j hj => absurd hj (Nat.not_lt_zero j)⟩
    · rw [if_neg hemp] at h
      exact absurd h (by simp)
  | cons c rest ih =>
    intro i h
    simp only [firstOccur] at h
    by_cases hp : pat.isPrefixOf (c :: rest) = true
    · rw [if_pos hp] at h
      injection h with h
      subst h
      exact ⟨hp, fun j hj => absurd hj (Nat.not_lt_zero j)⟩
    · rw [if_neg hp] at h
      cases hfo : firstOccur pat rest with
      | none =>
        rw [hfo] at h
        simp at h
      | some i' =>
        rw [hfo] at h
        simp only [Option.map_some'] at h
        injection h with h
        subst h
        obtain ⟨h1, h2⟩ := ih i' hfo
        refine ⟨by simpa using h1, fun j hj => ?_⟩
        cases j with
        | zero =>
          rw [List.drop_zero]
          cases hval : pat.isPrefixOf (c :: rest)
          · rfl
          · exact absurd hval hp
        | succ j' =>
          rw [List.drop_succ_cons]
          exact h2 j' (by omega)

theorem firstOccur_of (pat : List Char) :
    ∀ (s : List Char) (i : Nat),
      pat.isPrefixOf (s.drop i) = true →
      (∀ j, j < i → pat.isPrefixOf (s.drop j) = false) →
      firstOccur pat s = some i := by
  intro s
  induction s with
  | nil =>
    intro i h1 h2
    have hpat : pat = [] := by
      cases pat with
      | nil => rfl
      | cons a as => simp [List.drop_nil, List.isPrefixOf] at h1
    subst hpat
    have hi : i = 0 := by
      by_contra hne
      have := h2 0 (Nat.pos_of_ne_zero hne)
      simp [List.isPrefixOf] at this
    subst hi
    rfl
  | cons c rest ih =>
    intro i h1 h2
    simp only [firstOccur]
    by_cases hp : pat.isPrefixOf (c :: rest) = true
    · rw [if_pos hp]
      have hi : i = 0 := by
        by_contra hne
        have hfalse := h2 0 (Nat.pos_of_ne_zero hne)
        rw [List.drop_zero] at hfalse
        rw [hfalse] at hp
        exact absurd hp (by simp)
      subst hi
      rfl
    · rw [if_neg hp]
      cases i with
      | zero =>
        rw [List.drop_zero] at h1
        exact absurd h1 hp
      | succ i' =>
        have hrec := ih i' (by simpa using h1) (fun j hj => by
          have := h2 (j + 1) (by omega)
          simpa using this)
        rw [hrec]
        rfl

/-- If the first occurrence of `pat` in `p ++ pat` is the final one, then it
stays the first occurrence after appending any tail. -/
theorem firstOccur_append_tail (pat p tail : List Char)
    (h : firstOccur pat (p ++ pat) = some p.length) :
    firstOccur pat (p ++ (pat ++ tail)) = some p.length := by
  obtain ⟨_, h2⟩ := firstOccur_some pat (p ++ pat) p.length h
  apply firstOccur_of
  · rw [List.drop_left]
    exact isPrefixOf_append_of tail (isPrefixOf_self pat)
  · intro j hj
    have hdec : (p ++ (pat ++ tail)).drop j = (p ++ pat).drop j ++ tail := by
      rw [← List.append_assoc]
      exact drop_app_le tail (by simp; omega)
    rw [hdec]
    cases hval : pat.isPrefixOf ((p ++ pat).drop j ++ tail) with
    | false => rfl
    | true =>
      have hlen : pat.length ≤ ((p ++ pat).drop j).length := by
        simp only [List.length_drop, List.length_append]
        omega
      have := isPrefixOf_of_append hlen hval
      rw [h2 j hj] at this
      exact absurd this (by simp)

/-! ### Lemmas about line splitting and joining -/

theorem splitNl_ne_nil (s : List Char) : splitNl s ≠ [] := by
  cases s with
  | nil => simp [splitNl]
  | cons c rest =>
    simp only [splitNl]
    cases splitNl rest with
    | nil => simp
    | cons l ls =>
      by_cases h : c = '\n' <;> simp [h]

theorem splitNl_cons_eq (c : Char) (rest l0 : List Char)
    (ls0 : List (List Char)) (hsp : splitNl rest = l0 :: ls0) :
    splitNl (c :: rest) =
      if c = '\n' then [] :: l0 :: ls0 else (c :: l0) :: ls0 := by
  simp only [splitNl, hsp]

theorem not_newline_mem_splitNl :
    ∀ (s : List Char), ∀ l ∈ splitNl s, '\n' ∉ l := by
  intro s
  induction s with
  | nil =>
    intro l hl
    simp only [splitNl, List.mem_singleton] at hl
    subst hl
    simp
  | cons c rest ih =>
    intro l hl
    cases hsp : splitNl rest with
    | nil => exact absurd hsp (splitNl_ne_nil rest)
    | cons l0 ls0 =>
      rw [splitNl_cons_eq c rest l0 ls0 hsp] at hl
      by_cases hc : c = '\n'
      · rw [if_pos hc] at hl
        rcases List.mem_cons.mp hl with h0 | h0
        · subst h0
          simp
        · have : l ∈ splitNl rest := by rw [hsp]; exact h0
          exact ih l this
      · rw [if_neg hc] at hl
        rcases List.mem_cons.mp hl with h0 | h0
        · subst h0
          intro hmem
          rcases List.mem_cons.mp hmem with h1 | h1
          · exact hc h1.symm
          · have hmem0 : l0 ∈ splitNl rest := by
              rw [hsp]; exact List.mem_cons_self l0 ls0
            exact ih l0 hmem0 h1
        · have : l ∈ splitNl rest := by
            rw [hsp]; exact List.mem_cons_of_mem l0 h0
          exact ih l this

theorem splitNl_single {l : List Char} (h : '\n' ∉ l) : splitNl l = [l] := by
  induction l with
  | nil => rfl
  | cons c rest ih =>
    have hc : c ≠ '\n' := fun hc => h (hc ▸ List.mem_cons_self c rest)
    have hrest : '\n' ∉ rest := fun hm => h (List.mem_cons_of_mem c hm)
    simp only [splitNl, ih hrest]
    rw [if_neg hc]

theorem splitNl_append_cons (l rest : List Char) (h : '\n' ∉ l) :
    splitNl (l ++ '\n' :: rest) = l :: splitNl rest := by
  induction l with
  | nil =>
    rw [List.nil_append]
    cases hsp : splitNl rest with
    | nil => exact absurd hsp (splitNl_ne_nil rest)
    | cons a as =>
      rw [splitNl_cons_eq '\n' rest a as hsp, if_pos rfl]
  | cons c t ih =>
    have hc : c ≠ '\n' := fun hc => h (hc ▸ List.mem_cons_self c t)
    have ht : '\n' ∉ t := fun hm => h (List.mem_cons_of_mem c hm)
    rw [List.cons_append, splitNl_cons_eq c _ _ _ (ih ht), if_neg hc]

theorem joinNl_cons_cons (l l2 : List Char) (ls : List (List Char)) :
    joinNl (l :: l2 :: ls) = l ++ '\n' :: joinNl (l2 :: ls) := by
  simp only [joinNl]

theorem splitNl_joinNl :
    ∀ (ls : List (List Char)), ls ≠ [] → (∀ l ∈ ls, '\n' ∉ l) →
      splitNl (joinNl ls) = ls := by
  intro ls
  induction ls with
  | nil => intro h _; exact absurd rfl h
  | cons l rest ih =>
    intro _ hmem
    cases rest with
    | nil =>
      simp only [joinNl]
      exact splitNl_single (hmem l (List.mem_cons_self l []))
    | cons l2 ls2 =>
      rw [joinNl_cons_cons,
        splitNl_append_cons l _ (hmem l (List.mem_cons_self l (l2 :: ls2))),
        ih (by simp) (fun x hx => hmem x (List.mem_cons_of_mem l hx))]

/-! ### Lemmas about the heuristic extraction -/

theorem mem_smartLines :
    ∀ (lines : List (List Char)) (b : Bool), ∀ l ∈ PostHook.smartLines lines b,
      pyStrip l = l ∧ l ≠ [] ∧ PostHook.isBannerLine l = false ∧
        PostHook.matchSkip l = false ∧ ∃ orig ∈ lines, l = pyStrip orig := by
  intro lines
  induction lines with
  | nil =>
    intro b l hl
    simp [PostHook.smartLines] at hl
  | cons line rest ih =>
    intro b l hl
    simp only [PostHook.smartLines] at hl
    by_cases h1 : pyStrip line = []
    · rw [if_pos h1] at hl
      obtain ⟨p1, p2, p3, p4, orig, ho, he⟩ := ih b l hl
      exact ⟨p1, p2, p3, p4, orig, List.mem_cons_of_mem line ho, he⟩
    · rw [if_neg h1] at hl
      by_cases h2 : PostHook.isBannerLine (pyStrip line) = true
      · rw [if_pos h2] at hl
        obtain ⟨p1, p2, p3, p4, orig, ho, he⟩ := ih true l hl
        exact ⟨p1, p2, p3, p4, orig, List.mem_cons_of_mem line ho, he⟩
      · rw [if_neg h2] at hl
        cases b with
        | true =>
          rw [if_pos rfl] at hl
          obtain ⟨p1, p2, p3, p4, orig, ho, he⟩ := ih true l hl
          exact ⟨p1, p2, p3, p4, orig, List.mem_cons_of_mem line ho, he⟩
        | false =>
          rw [if_neg (by simp)] at hl
          by_cases h3 : PostHook.matchSkip (pyStrip line) = true
          · rw [if_pos h3] at hl
            obtain ⟨p1, p2, p3, p4, orig, ho, he⟩ := ih false l hl
            exact ⟨p1, p2, p3, p4, orig, List.mem_cons_of_mem line ho, he⟩
          · rw [if_neg h3] at hl
            rcases List.mem_cons.mp hl with h0 | h0
            · subst h0
              refine ⟨pyStrip_idem line, h1, ?_, ?_,
                line, List.mem_cons_self line rest, rfl⟩
              · cases hv : PostHook.isBannerLine (pyStrip line)
                · rfl
                · exact absurd hv h2
              · cases hv : PostHook.matchSkip (pyStrip line)
                · rfl
                · exact absurd hv h3
            · obtain ⟨p1, p2, p3, p4, orig, ho, he⟩ := ih false l h0
              exact ⟨p1, p2, p3, p4, orig, List.mem_cons_of_mem line ho, he⟩

theorem smartLines_fixed :
    ∀ (cls : List (List Char)),
      (∀ l ∈ cls, pyStrip l = l ∧ l ≠ [] ∧ PostHook.isBannerLine l = false ∧
        PostHook.matchSkip l = false) →
      PostHook.smartLines cls false = cls := by
  intro cls
  induction cls with
  | nil => intro _; rfl
  | cons l rest ih =>
    intro h
    obtain ⟨hs, hne, hb, hk⟩ := h l (List.mem_cons_self l rest)
    simp only [PostHook.smartLines, hs]
    rw [if_neg hne, if_neg (by simp [hb]), if_neg (by simp),
      if_neg (by simp [hk]),
      ih (fun x hx => h x (List.mem_cons_of_mem l hx))]

/-! ### Lemmas about the watermark -/

namespace TelegramUtils

theorem le_acknowledge_messages (last : Nat) (ids : List Nat) :
    last ≤ acknowledge_messages last ids := by
  cases ids with
  | nil => exact Nat.le_refl _
  | cons h t =>
    simp only [acknowledge_messages]
    split
    · omega
    · exact Nat.le_refl _

theorem acknowledge_messages_eq_foldl_max (last : Nat) (ids : List Nat)
    (h : ids ≠ []) : acknowledge_messages last ids = ids.foldl Nat.max last := by
  cases ids with
  | nil => exact absurd rfl h
  | cons a t =>
    simp only [acknowledge_messages, pyMax, List.foldl_cons]
    have key : ∀ (t : List Nat) (x y : Nat),
        t.foldl Nat.max (Nat.max x y) = Nat.max x (t.foldl Nat.max y) := by
      intro t
      induction t with
      | nil => intro x y; rfl
      | cons b t ih =>
        intro x y
        simp only [List.foldl_cons]
        have hassoc : (x.max y).max b = x.max (y.max b) := Nat.max_assoc x y b
        rw [hassoc]
        exact ih x (Nat.max y b)
    rw [key t last a]
    split
    · next hlt => exact (Nat.max_eq_right (Nat.le_of_lt hlt)).symm
    · next hge => exact (Nat.max_eq_left (Nat.le_of_not_lt hge)).symm

theorem runAcks_append (init : Nat) (c1 c2 : List (List Nat)) :
    runAcks init (c1 ++ c2) = runAcks (runAcks init c1) c2 := by
  simp [runAcks, List.foldl_append]

theorem runAcks_eq_foldl_max (init : Nat) (calls : List (List Nat))
    (hne : ∀ l ∈ calls, l ≠ []) :
    runAcks init calls = calls.flatten.foldl Nat.max init := by
  induction calls generalizing init with
  | nil => rfl
  | cons l rest ih =>
    have hstep : runAcks init (l :: rest) =
        runAcks (acknowledge_messages init l) rest := rfl
    rw [hstep, ih _ (fun x hx => hne x (List.mem_cons_of_mem l hx)),
      acknowledge_messages_eq_foldl_max init l (hne l (List.mem_cons_self l rest)),
      List.flatten_cons, List.foldl_append]

end TelegramUtils

/-! ### Lemmas about truncation and cleanup -/

theorem truncNotice_length : PostHook.truncNotice.length = 15 := by decide

theorem length_truncate_le (max_length : Nat) (content : List Char)
    (hmax : 50 ≤ max_length) :
    (PostHook.truncate_content max_length content).length ≤ max_length := by
  unfold PostHook.truncate_content
  split
  · next h => exact h
  · next h =>
    simp only [List.length_append, truncNotice_length]
    have ht := length_pySliceTo_le_toNat content ((max_length : Int) - 50)
      (by omega)
    split
    · next hcut =>
      have h2 := length_pySliceTo_le
        (pySliceTo content ((max_length : Int) - 50))
        (max (pyRfind (pySliceTo content ((max_length : Int) - 50)) '。')
          (pyRfind (pySliceTo content ((max_length : Int) - 50)) '\n') + 1)
      omega
    · omega

theorem erase_append_singleton {α : Type} [DecidableEq α] {a : α} {l : List α}
    (h : a ∉ l) : (l ++ [a]).erase a = l := by
  rw [List.erase_append_right _ h, List.erase_cons_head, List.append_nil]

/-! ## Claims -/

/-- C1: Every terminal path of a dispatch cycle over a non-empty fetched
batch — PreGate interception, agent (TaskRunner) failure, extraction failure,
or delivery failure — performs an `acknowledge_messages` call on the batch's
update ids: for every PreHook verdict, processor result and PostHook
behaviour, the acknowledgment action is in the cycle's effect trace. -/
theorem claim_c1_ack_on_every_terminal_path
    (preContinue : Bool) (quickReply : Option (List Char))
    (postCfg : PostHook.Config) (timestamp : List Char)
    (msgs : List Orchestrator.Msg) (result : MessageProcessor.ProcResult)
    (_hne : msgs ≠ []) :
    Orchestrator.Action.ack (msgs.map (fun m => m.update_id)) ∈
      Orchestrator.check_and_process_messages preContinue quickReply postCfg
        timestamp msgs result := by
  unfold Orchestrator.check_and_process_messages
    Orchestrator.process_messages_with_claude
  split
  · exact List.mem_append_right _ (List.mem_singleton.mpr rfl)
  · exact List.mem_append_right _ (List.mem_singleton.mpr rfl)

/-- Witness for C1: a concrete single-message batch on the agent-failure
path. -/
theorem claim_c1_witness :
    Orchestrator.Action.ack [5] ∈
      Orchestrator.check_and_process_messages true none
        ⟨4000, true, false⟩ [] [⟨5, 42⟩] ⟨false, [], [], 1⟩ := by
  have h := claim_c1_ack_on_every_terminal_path true none ⟨4000, true, false⟩ []
    [⟨5, 42⟩] ⟨false, [], [], 1⟩ (by simp)
  simpa using h

/-- C2: Over every sequence of `acknowledge_messages` calls with non-empty
update-id lists, the stored watermark never decreases from one call to the
next, and the final watermark equals the maximum of its initial value and
every update id ever passed. -/
theorem claim_c2_watermark_monotone_max (init : Nat) (calls : List (List Nat))
    (hne : ∀ l ∈ calls, l ≠ []) :
    (∀ k : Nat, TelegramUtils.runAcks init (calls.take k) ≤
      TelegramUtils.runAcks init (calls.take (k + 1))) ∧
    TelegramUtils.runAcks init calls = calls.flatten.foldl Nat.max init := by
  constructor
  · intro k
    rw [List.take_succ]
    cases hget : calls[k]? with
    | none => simp
    | some l =>
      simp only [Option.toList, TelegramUtils.runAcks_append]
      exact TelegramUtils.le_acknowledge_messages _ l
  · exact TelegramUtils.runAcks_eq_foldl_max init calls hne

/-- Witness for C2 at a concrete call sequence. -/
theorem claim_c2_witness :
    (TelegramUtils.runAcks 7 ([[3], [9, 2]].take 0) ≤
      TelegramUtils.runAcks 7 ([[3], [9, 2]].take (0 + 1))) ∧
    TelegramUtils.runAcks 7 [[3], [9, 2]] =
      [[3], [9, 2]].flatten.foldl Nat.max 7 :=
  ⟨(claim_c2_watermark_monotone_max 7 [[3], [9, 2]] (by decide)).1 0,
   (claim_c2_watermark_monotone_max 7 [[3], [9, 2]] (by decide)).2⟩

/-- C3: For every agent outcome — exit status 0, non-zero exit, timeout,
spawn failure, or an internal exception — after `process_messages` returns,
the session created for the batch is no longer registered as active, its
working directory no longer exists, and (cleanup having run with
`keep_logs = true`, archiving before deletion) its `*.log` files are in the
archive. -/
theorem claim_c3_session_cleanup (st : SessionManager.State)
    (files : String → List String) (sid : String) (timeout : Nat)
    (outcome : MessageProcessor.RunOutcome)
    (hactive : sid ∉ st.active) (hdirs : sid ∉ st.dirs) :
    sid ∉ (MessageProcessor.process_messages st files sid timeout outcome).2.active ∧
    sid ∉ (MessageProcessor.process_messages st files sid timeout outcome).2.dirs ∧
    ∀ f ∈ files sid, SessionManager.isLogName f = true →
      (sid, f) ∈
        (MessageProcessor.process_messages st files sid timeout outcome).2.archivedLogs := by
  have hcreate : SessionManager.create_session st sid =
      { active := st.active ++ [sid], dirs := st.dirs ++ [sid],
        archivedLogs := st.archivedLogs } := by
    simp [SessionManager.create_session, hactive, hdirs]
  have hfinal : (MessageProcessor.process_messages st files sid timeout outcome).2 =
      { active := st.active, dirs := st.dirs,
        archivedLogs := st.archivedLogs ++
          ((files sid).filter SessionManager.isLogName).map (fun f => (sid, f)) } := by
    have hm1 : sid ∈ st.active ++ [sid] :=
      List.mem_append_right _ (List.mem_singleton.mpr rfl)
    have hm2 : sid ∈ st.dirs ++ [sid] :=
      List.mem_append_right _ (List.mem_singleton.mpr rfl)
    unfold MessageProcessor.process_messages
    rw [hcreate]
    unfold SessionManager.cleanup_session
    simp [hm1, hm2, erase_append_singleton hactive,
      erase_append_singleton hdirs]
  rw [hfinal]
  refine ⟨hactive, hdirs, fun f hf hlog => ?_⟩
  exact List.mem_append_right _
    (List.mem_map.mpr ⟨f, List.mem_filter.mpr ⟨hf, hlog⟩, rfl⟩)

/-- Witness for C3 at a concrete state, session and (timeout) outcome. -/
theorem claim_c3_witness :
    "s1" ∉ (MessageProcessor.process_messages ⟨[], [], []⟩
      (fun _ => ["run.log", "note.txt"]) "s1" 180
      (MessageProcessor.RunOutcome.call
        (MessageProcessor.CallOutcome.timedOut [] []))).2.active ∧
    "s1" ∉ (MessageProcessor.process_messages ⟨[], [], []⟩
      (fun _ => ["run.log", "note.txt"]) "s1" 180
      (MessageProcessor.RunOutcome.call
        (MessageProcessor.CallOutcome.timedOut [] []))).2.dirs ∧
    ∀ f ∈ (fun _ : String => ["run.log", "note.txt"]) "s1",
      SessionManager.isLogName f = true →
      ("s1", f) ∈ (MessageProcessor.process_messages ⟨[], [], []⟩
        (fun _ => ["run.log", "note.txt"]) "s1" 180
        (MessageProcessor.RunOutcome.call
          (MessageProcessor.CallOutcome.timedOut [] []))).2.archivedLogs :=
  claim_c3_session_cleanup ⟨[], [], []⟩ (fun _ => ["run.log", "note.txt"])
    "s1" 180 (MessageProcessor.RunOutcome.call
      (MessageProcessor.CallOutcome.timedOut [] [])) (by simp) (by simp)

/-- C4 counterexample: with whitelist = blacklist = {user id 1}, sender id 1
is in a non-empty allow-list, yet `_check_permissions` rejects it — the code
consults the deny-list first, so a sender in both lists does not pass,
contradicting the claimed allow-list-first semantics. -/
theorem claim_c4_counterexample :
    (PreHook.Config.mk [Sum.inl 1] [Sum.inl 1] 10).whitelist ≠ [] ∧
    (PreHook.Config.mk [Sum.inl 1] [Sum.inl 1] 10).whitelist.contains
      (Sum.inl 1) = true ∧
    (PreHook.check_permissions (PreHook.Config.mk [Sum.inl 1] [Sum.inl 1] 10)
      1 "u").1 = false := by
  decide

/-- C4 amended: authorization is deny-list-first — a sender on the deny-list
(by id or username) is always rejected; otherwise, if a non-empty allow-list
is configured the sender passes iff on it (by id or username); otherwise the
sender passes. -/
theorem claim_c4_amended (cfg : PreHook.Config) (user_id : Int)
    (username : String) :
    (PreHook.check_permissions cfg user_id username).1 = true ↔
      (PreHook.inUserList cfg.blacklist user_id username = false ∧
        (cfg.whitelist = [] ∨
          PreHook.inUserList cfg.whitelist user_id username = true)) := by
  unfold PreHook.check_permissions
  split_ifs with h1 h2 h3 <;> simp_all

/-- A trailing acknowledgment action contributes no deliveries. -/
theorem sendsTo_append_ack (chat : Int) (trace : List Orchestrator.Action)
    (ids : List Nat) :
    Orchestrator.sendsTo chat (trace ++ [Orchestrator.Action.ack ids]) =
      Orchestrator.sendsTo chat trace := by
  unfold Orchestrator.sendsTo
  rw [List.countP_append]
  simp [List.countP_cons]

/-- Per-message sends to a chat count the chat's messages in the batch. -/
theorem sendsTo_map (chat : Int) (reply : List Char) :
    ∀ msgs : List Orchestrator.Msg,
      Orchestrator.sendsTo chat
        (msgs.map (fun m => Orchestrator.Action.send m.chat_id reply)) =
      msgs.countP (fun m => m.chat_id == chat)
  | [] => rfl
  | m :: rest => by
    have ih := sendsTo_map chat reply rest
    unfold Orchestrator.sendsTo at ih ⊢
    simp only [List.map_cons, List.countP_cons, ih]

/-- C5 counterexample: a batch holding two messages from chat 42, processed
successfully with a marker-delimited reply, makes chat 42 receive the reply
twice — delivery is per message, not per distinct chat. -/
theorem claim_c5_counterexample :
    Orchestrator.sendsTo 42
      (Orchestrator.check_and_process_messages true none ⟨4000, true, false⟩ []
        [⟨1, 42⟩, ⟨2, 42⟩]
        ⟨true, "===REPLY_START===Hi===REPLY_END===".data, [], 0⟩) = 2 := by
  decide

/-- C5 amended: when the agent invocation succeeds and a non-empty reply is
extracted, the dispatcher delivers the reply once per message in the batch, so
each chat receives it as many times as it has messages there (a chat with two
batch messages receives it twice, not once). -/
theorem claim_c5_amended (postCfg : PostHook.Config) (timestamp : List Char)
    (msgs : List Orchestrator.Msg) (result : MessageProcessor.ProcResult)
    (chat : Int) (reply : List Char)
    (hsucc : result.success = true)
    (hrep : PostHook.process postCfg result.output timestamp = some reply)
    (hne : reply ≠ []) :
    Orchestrator.sendsTo chat
      (Orchestrator.process_messages_with_claude postCfg timestamp msgs result)
      = msgs.countP (fun m => m.chat_id == chat) := by
  unfold Orchestrator.process_messages_with_claude
  rw [hsucc, hrep]
  simp only [if_true]
  rw [if_pos hne, sendsTo_append_ack, sendsTo_map]

/-- Witness for C5 amended at a concrete two-message batch. -/
theorem claim_c5_amended_witness :
    Orchestrator.sendsTo 42
      (Orchestrator.process_messages_with_claude ⟨4000, true, false⟩ []
        [⟨1, 42⟩, ⟨2, 42⟩]
        ⟨true, "===REPLY_START===Hi===REPLY_END===".data, [], 0⟩)
      = [Orchestrator.Msg.mk 1 42, Orchestrator.Msg.mk 2 42].countP
          (fun m => m.chat_id == 42) :=
  claim_c5_amended ⟨4000, true, false⟩ [] [⟨1, 42⟩, ⟨2, 42⟩]
    ⟨true, "===REPLY_START===Hi===REPLY_END===".data, [], 0⟩ 42 "Hi".data
    rfl (by decide) (by decide)

/-- C8: With rate limit `N`: when `N` requests were accepted within the last
60 seconds, the next request from that sender is rejected; and when more than
60 seconds have elapsed since every earlier request, the next request is
accepted. -/
theorem claim_c8_rate_limit_boundary (N : Nat) (window : List Int)
    (now : Int) :
    (window.length = N → (∀ ts ∈ window, now - ts < 60) →
      (PreHook.check_rate_limit N window now).1 = false) ∧
    (1 ≤ N → (∀ ts ∈ window, 60 < now - ts) →
      (PreHook.check_rate_limit N window now).1 = true) := by
  constructor
  · intro hlen hall
    have hfilter : window.filter (fun ts => now - ts < 60) = window :=
      List.filter_eq_self.mpr (fun ts hts => by simpa using hall ts hts)
    unfold PreHook.check_rate_limit
    simp only [hfilter]
    rw [if_pos (by omega)]
  · intro hN hall
    have hfilter : window.filter (fun ts => now - ts < 60) = [] :=
      List.filter_eq_nil_iff.mpr (fun ts hts => by
        have := hall ts hts
        simp only [decide_eq_true_eq]
        omega)
    unfold PreHook.check_rate_limit
    simp only [hfilter]
    rw [if_neg (by simp; omega)]

/-- Witness for C8: limit 2, a full recent window rejects; a stale window
accepts. -/
theorem claim_c8_witness :
    (PreHook.check_rate_limit 2 [100, 110] 150).1 = false ∧
    (PreHook.check_rate_limit 2 [10, 20] 150).1 = true :=
  ⟨(claim_c8_rate_limit_boundary 2 [100, 110] 150).1 rfl (by decide),
   (claim_c8_rate_limit_boundary 2 [10, 20] 150).2 (by decide) (by decide)⟩

/-- C10: A rejected rate-limit check stores exactly the live (non-expired)
window and records nothing, so a later check at any time behaves exactly as
if the rejected request had never been made; only accepted requests consume
window slots. -/
theorem claim_c10_rejection_records_nothing (N : Nat) (window : List Int)
    (now : Int) (hrej : (PreHook.check_rate_limit N window now).1 = false) :
    (PreHook.check_rate_limit N window now).2 =
      window.filter (fun ts => now - ts < 60) ∧
    ∀ now2 : Int, now ≤ now2 →
      PreHook.check_rate_limit N
        (PreHook.check_rate_limit N window now).2 now2 =
      PreHook.check_rate_limit N window now2 := by
  have hbranch : N ≤ (window.filter (fun ts => now - ts < 60)).length := by
    by_contra hlt
    unfold PreHook.check_rate_limit at hrej
    simp only at hrej
    rw [if_neg hlt] at hrej
    simp at hrej
  have hsnd : (PreHook.check_rate_limit N window now).2 =
      window.filter (fun ts => now - ts < 60) := by
    unfold PreHook.check_rate_limit
    simp only
    rw [if_pos hbranch]
  refine ⟨hsnd, fun now2 h2 => ?_⟩
  rw [hsnd]
  have hff : (window.filter (fun ts => now - ts < 60)).filter
      (fun ts => now2 - ts < 60) = window.filter (fun ts => now2 - ts < 60) := by
    rw [List.filter_filter]
    apply List.filter_congr
    intro ts _
    by_cases hc : now2 - ts < 60
    · have hc1 : now - ts < 60 := by omega
      simp [hc, hc1]
    · simp [hc]
  unfold PreHook.check_rate_limit
  simp only [hff]

/-- Witness for C10: limit 1, window [100], a rejected call at time 130. -/
theorem claim_c10_witness :
    (PreHook.check_rate_limit 1 [100] 130).2 =
      [100].filter (fun ts => (130 : Int) - ts < 60) ∧
    PreHook.check_rate_limit 1 (PreHook.check_rate_limit 1 [100] 130).2 200 =
      PreHook.check_rate_limit 1 [100] 200 :=
  ⟨(claim_c10_rejection_records_nothing 1 [100] 130 (by decide)).1,
   (claim_c10_rejection_records_nothing 1 [100] 130 (by decide)).2 200
     (by decide)⟩

/-- C7 counterexample: R = "B" contains neither marker literal, yet with the
prefix noise "===REPLY_START===A" (noise that itself contains the start
marker) extraction does not return R stripped: the regex match starts at the
first start-marker occurrence, inside the noise. -/
theorem claim_c7_counterexample :
    containsSub PostHook.startMarker "B".data = false ∧
    containsSub PostHook.endMarker "B".data = false ∧
    PostHook.extract_reply_content
      ("===REPLY_START===A".data ++ (PostHook.startMarker ++ ("B".data ++
        (PostHook.endMarker ++ [])))) ≠ some (pyStrip "B".data) := by
  decide

/-- C7 amended: wrapping a reply `R` between the markers inside noise
round-trips to `R` stripped of leading and trailing whitespace, provided the
wrapping occurrences are the first occurrences: the start marker first occurs
in `prefix ++ startMarker` at index `|prefix|`, and the end marker first
occurs in `R ++ endMarker` at index `|R|`.  (The original side condition —
`R` merely not containing the literals, with arbitrary noise — is
insufficient: marker occurrences can straddle the concatenation boundaries,
as the counterexample shows.) -/
theorem claim_c7_amended (p R s : List Char)
    (hp : firstOccur PostHook.startMarker (p ++ PostHook.startMarker) =
      some p.length)
    (hR : firstOccur PostHook.endMarker (R ++ PostHook.endMarker) =
      some R.length) :
    PostHook.extract_reply_content
      (p ++ (PostHook.startMarker ++ (R ++ (PostHook.endMarker ++ s)))) =
      some (pyStrip R) := by
  have h1 : firstOccur PostHook.startMarker
      (p ++ (PostHook.startMarker ++ (R ++ (PostHook.endMarker ++ s)))) =
      some p.length :=
    firstOccur_append_tail PostHook.startMarker p _ hp
  have hlen : (p ++ PostHook.startMarker).length =
      p.length + PostHook.startMarker.length := by simp
  have hdrop :
      (p ++ (PostHook.startMarker ++ (R ++ (PostHook.endMarker ++ s)))).drop
        (p.length + PostHook.startMarker.length) =
      R ++ (PostHook.endMarker ++ s) := by
    rw [← List.append_assoc, ← hlen, List.drop_left]
  have h2 : firstOccur PostHook.endMarker (R ++ (PostHook.endMarker ++ s)) =
      some R.length :=
    firstOccur_append_tail PostHook.endMarker R s hR
  have htake : (R ++ (PostHook.endMarker ++ s)).take R.length = R :=
    List.take_left R (PostHook.endMarker ++ s)
  unfold PostHook.extract_reply_content
  rw [h1]
  simp only [hdrop, h2, htake]

/-- Witness for C7 amended at concrete noise and reply. -/
theorem claim_c7_amended_witness :
    PostHook.extract_reply_content
      ("x".data ++ (PostHook.startMarker ++ ("B".data ++
        (PostHook.endMarker ++ "y".data)))) = some (pyStrip "B".data) :=
  claim_c7_amended "x".data "B".data "y".data (by decide) (by decide)

/-- C9: the heuristic extraction is idempotent on its own outputs — whenever
`_smart_extract` produces `S`, running it again on `S` returns `S` unchanged
(outputs never contain blank lines, summary banners or skip-pattern lines, so
the side conditions of the claim hold automatically). -/
theorem claim_c9_smart_extract_idem (raw S : List Char)
    (h : PostHook.smart_extract raw = some S) :
    PostHook.smart_extract S = some S := by
  unfold PostHook.smart_extract at h
  by_cases hcls : PostHook.smartLines (splitNl raw) false = []
  · rw [if_pos hcls] at h
    exact absurd h (by simp)
  · rw [if_neg hcls] at h
    injection h with h
    subst h
    have hprops := fun l hl => mem_smartLines (splitNl raw) false l hl
    have hnn : ∀ l ∈ PostHook.smartLines (splitNl raw) false, '\n' ∉ l := by
      intro l hl
      obtain ⟨_, _, _, _, orig, ho, he⟩ := hprops l hl
      rw [he]
      intro hmem
      exact (not_newline_mem_splitNl raw orig ho) (mem_of_mem_pyStrip hmem)
    have hsplit : splitNl (joinNl (PostHook.smartLines (splitNl raw) false)) =
        PostHook.smartLines (splitNl raw) false :=
      splitNl_joinNl _ hcls hnn
    unfold PostHook.smart_extract
    rw [hsplit,
      smartLines_fixed _ (fun l hl =>
        ⟨(hprops l hl).1, (hprops l hl).2.1, (hprops l hl).2.2.1,
          (hprops l hl).2.2.2.1⟩),
      if_neg hcls]

/-- Witness for C9 at a concrete heuristic-extraction output. -/
theorem claim_c9_witness :
    PostHook.smart_extract "Hi".data = some "Hi".data :=
  claim_c9_smart_extract_idem "Hi".data "Hi".data (by decide)

/-- C6 counterexample, refuting the claimed length bound for every positive
configured maximum.  First config: `max_length = 4`, timestamp enabled — a
4-character cleaned reply is within the limit, but the appended timestamp
suffix makes the result 27 characters.  Second config: `max_length = 10`,
timestamp disabled — a 12-character reply triggers truncation, whose Python
slice `content[:10 - 50]` empties the text, and the appended truncation
notice alone is 15 characters.  Both outputs exceed their configured
maxima. -/
theorem claim_c6_counterexample :
    (PostHook.process ⟨4, true, true⟩
        "===REPLY_START===abcd===REPLY_END===".data
        "2026-01-01 00:00:00".data).map List.length = some 27 ∧ 4 < 27 ∧
    (PostHook.process ⟨10, true, false⟩
        "===REPLY_START===ABCDEFGHIJKL===REPLY_END===".data
        []).map List.length = some 15 ∧ 10 < 15 := by
  decide

/-- C6 amended: the bound holds with the timestamp disabled and a configured
maximum of at least 50: every successful `process` result has length at most
`max_length` (the Python slice `content[:max_length - 50]` grows the result
for smaller maxima, and the timestamp suffix is appended after the length
check, as the counterexample shows).  Unconditionally, an input whose
extracted, cleaned content is at or below the maximum passes through
unchanged, plus the optional timestamp suffix. -/
theorem claim_c6_amended (cfg : PostHook.Config) (output timestamp : List Char) :
    (cfg.add_timestamp = false → 50 ≤ cfg.max_length →
      ∀ r, PostHook.process cfg output timestamp = some r →
        r.length ≤ cfg.max_length) ∧
    (∀ rc, PostHook.extract_reply_content output = some rc → rc ≠ [] →
      (PostHook.clean_content rc).length ≤ cfg.max_length →
      PostHook.process cfg output timestamp =
        some (PostHook.clean_content rc ++
          (if cfg.add_timestamp then PostHook.tsSep ++ timestamp else []))) := by
  constructor
  · intro hts hmax r hr
    unfold PostHook.process at hr
    cases hx : PostHook.extract_reply_content output with
    | none =>
      simp only [hx] at hr
      exact Option.noConfusion hr
    | some rc =>
      simp only [hx] at hr
      by_cases hrc : rc = []
      · rw [if_pos hrc] at hr
        exact absurd hr (by simp)
      · rw [if_neg hrc] at hr
        simp only [hts, Bool.false_eq_true, if_false, Option.some.injEq] at hr
        subst hr
        have hfmt : (if cfg.enable_formatting then
            PostHook.format_content (PostHook.clean_content rc)
          else PostHook.clean_content rc) = PostHook.clean_content rc := by
          cases cfg.enable_formatting <;> simp [PostHook.format_content]
        rw [hfmt]
        split
        · exact length_truncate_le _ _ hmax
        · next hle => omega
  · intro rc hx hne hlen
    have hfmt : (if cfg.enable_formatting then
        PostHook.format_content (PostHook.clean_content rc)
      else PostHook.clean_content rc) = PostHook.clean_content rc := by
      cases cfg.enable_formatting <;> simp [PostHook.format_content]
    unfold PostHook.process
    simp only [hx]
    rw [if_neg hne]
    simp only [hfmt]
    have hnlt : ¬ cfg.max_length < (PostHook.clean_content rc).length := by
      omega
    rw [if_neg hnlt]
    cases hts : cfg.add_timestamp
    · simp [hts]
    · simp [hts, List.append_assoc]

/-- Witness for C6 amended at a concrete config and output. -/
theorem claim_c6_amended_witness :
    "Hi".data.length ≤ (100 : Nat) ∧
    PostHook.process ⟨100, true, false⟩
        "===REPLY_START===Hi===REPLY_END===".data [] =
      some (PostHook.clean_content "Hi".data ++
        (if (PostHook.Config.mk 100 true false).add_timestamp then
          PostHook.tsSep ++ [] else [])) :=
  ⟨by decide,
   (claim_c6_amended ⟨100, true, false⟩
      "===REPLY_START===Hi===REPLY_END===".data []).2 "Hi".data
      (by decide) (by decide) (by decide)⟩

end Dispatcher
